import Mathlib

/-!
Verification development for the DL1a statistics-calculation tool
(`ctapipe/tools/stats_calculation.py`) and the two-pass chunked statistics
aggregation engine it drives.

The driver (`StatisticsCalculatorTool.setup` / `.start`) is embedded from the
source file. The engine (`PixelStatisticsCalculator.first_pass` /
`second_pass`, the chunk windower, the pixel aggregator and the validity
classifier) is not part of the given sources, so it is modelled from the
specification, as indicated on each definition.

Machine reals are modelled by exact rationals; a NaN / missing pixel reading
is modelled by `Option`.
-/

attribute [local semireducible] Rat.add Rat.mul Rat.sub Rat.inv

namespace StatsCalc

/-- Errors the tool can surface: `ToolConfigurationError` raised in `setup`
(and for invalid configuration values), and a write failure while storing a
telescope table. -/
inductive ToolError where
  | configurationError
  | writeError
deriving DecidableEq, Repr

/-- The DL1a data channel that statistics are computed over, the closed
enumeration behind the `dl1a_column_name` trait
`CaselessStrEnum(["image", "peak_time", "variance"])`. -/
inductive ColName where
  | image
  | peakTime
  | variance
deriving DecidableEq, Repr

/-- Character-wise lowercasing of a string (used for the caseless matching
of `CaselessStrEnum`). -/
def lowerStr (s : String) : String :=
  ⟨s.data.map Char.toLower⟩

/-- Validation of the `dl1a_column_name` configuration value, modelled from
the trait declaration `CaselessStrEnum(["image", "peak_time", "variance"])`
(caseless match against the closed set, any other string is a configuration
error rejected before processing starts). -/
def validateColName (s : String) : Except ToolError ColName :=
  if lowerStr s = "image" then .ok .image
  else if lowerStr s = "peak_time" then .ok .peakTime
  else if lowerStr s = "variance" then .ok .variance
  else .error .configurationError

/-- One DL1a event: a (monotonic) timestamp and, per pixel, a reading in each
of the three DL1a channels. `none` models a NaN / missing reading. -/
structure EventRec where
  time : Nat
  image : List (Option ℚ)
  peak_time : List (Option ℚ)
  variance : List (Option ℚ)
deriving DecidableEq, Repr

/-- Select the configured DL1a data channel of an event. -/
def colData : ColName → EventRec → List (Option ℚ)
  | .image, e => e.image
  | .peakTime, e => e.peak_time
  | .variance, e => e.variance

/-- The configuration surface of the tool and of the statistics engine:
input/output paths and the DL1a column (from the tool traits), chunk length,
optional chunk shift, validity thresholds and the camera pixel count (engine
side, modelled from the spec configuration surface). -/
structure Config where
  inputUrl : String
  outputPath : String
  dl1aColumnName : String
  chunkLength : Int
  chunkShift : Option Nat
  outlierFracThreshold : ℚ
  validLo : ℚ
  validHi : ℚ
  minEvents : Nat
  nPixels : Nat
deriving Repr

/-- Fuel-driven worker of the Chunk Windower: each step emits the first `N`
elements as a window and recurses on the rest; the fuel only bounds the
recursion depth (any fuel at least the list length gives the same result). -/
def chunksGo (N : Nat) : Nat → List α → List (List α)
  | _, [] => []
  | 0, _ :: _ => []
  | fuel + 1, x :: xs => ((x :: xs).take N) :: chunksGo N fuel ((x :: xs).drop N)

/-- Modelled from the spec: the Chunk Windower core. Splits an ordered list
into consecutive windows of length `N`; the last window may be shorter if the
list length is not a multiple of `N`. Returns no window for `N = 0`. -/
def chunkList (N : Nat) (l : List α) : List (List α) :=
  if N = 0 then [] else chunksGo N l.length l

/-- Modelled from the spec: the Chunk Windower entry point. Validates the
configured chunk length (a configuration error exactly when it is not
positive) and splits the table into chunks. -/
def makeChunks (N : Int) (l : List α) : Except ToolError (List (List α)) :=
  if N ≤ 0 then .error .configurationError
  else .ok (chunkList N.toNat l)

/-- One aggregated-statistics record per chunk: time bounds of the chunk,
per-pixel mean and (population) variance of the selected channel, the
per-pixel outlier mask, and the validity flag of the chunk. -/
structure StatsRecord where
  time_start : Nat
  time_end : Nat
  mean : List ℚ
  var : List ℚ
  outlier_mask : List Bool
  is_valid : Bool
deriving DecidableEq, Repr

/-- Modelled from the spec: the valid readings of pixel `p` in a chunk
(missing / NaN readings of the selected channel are excluded). -/
def pixelReadings (c : ColName) (chunk : List EventRec) (p : Nat) : List ℚ :=
  chunk.filterMap fun e => (colData c e).getD p none

/-- Modelled from the spec: per-pixel mean over the valid readings. -/
def pixelMean (xs : List ℚ) : ℚ :=
  xs.sum / (xs.length : ℚ)

/-- Modelled from the spec: per-pixel population variance over the valid
readings. -/
def pixelVar (xs : List ℚ) : ℚ :=
  ((xs.map fun v => (v - pixelMean xs) ^ 2).sum) / (xs.length : ℚ)

/-- Modelled from the spec: outlier decision for one pixel, the configured
bounds are absolute thresholds on the aggregated statistic. -/
def isOutlier (cfg : Config) (m : ℚ) : Bool :=
  decide (m < cfg.validLo) || decide (cfg.validHi < m)

/-- Modelled from the spec: the per-pixel means of one chunk. -/
def chunkMeans (cfg : Config) (c : ColName) (chunk : List EventRec) : List ℚ :=
  (List.range cfg.nPixels).map fun p => pixelMean (pixelReadings c chunk p)

/-- Modelled from the spec: the per-pixel population variances of one chunk. -/
def chunkVars (cfg : Config) (c : ColName) (chunk : List EventRec) : List ℚ :=
  (List.range cfg.nPixels).map fun p => pixelVar (pixelReadings c chunk p)

/-- Modelled from the spec: the per-pixel outlier mask of one chunk. -/
def chunkMask (cfg : Config) (c : ColName) (chunk : List EventRec) : List Bool :=
  (chunkMeans cfg c chunk).map (isOutlier cfg)

/-- Modelled from the spec: the Pixel Aggregator plus Validity Classifier on
one chunk. A chunk is valid when the number of outlier pixels stays within
the configured fraction of all pixels and the chunk holds at least the
configured minimum number of events. -/
def aggregateChunk (cfg : Config) (c : ColName) (chunk : List EventRec) : StatsRecord :=
  { time_start := ((chunk.head?).map EventRec.time).getD 0
    time_end := ((chunk.getLast?).map EventRec.time).getD 0
    mean := chunkMeans cfg c chunk
    var := chunkVars cfg c chunk
    outlier_mask := chunkMask cfg c chunk
    is_valid :=
      decide (((((chunkMask cfg c chunk).filter id).length : ℚ)) ≤
          cfg.outlierFracThreshold * (cfg.nPixels : ℚ))
        && decide (cfg.minEvents ≤ chunk.length) }

/-- Modelled from the spec: `PixelStatisticsCalculator.first_pass` — chunk
the whole table with the configured chunk length (no shift) and aggregate
every chunk. -/
def first_pass (cfg : Config) (c : ColName) (tbl : List EventRec) : List StatsRecord :=
  (chunkList cfg.chunkLength.toNat tbl).map (aggregateChunk cfg c)

/-- Index ranges `[start, stop)` of the unshifted chunks of a table of
length `L`. -/
def chunkRanges (N L : Nat) : List (Nat × Nat) :=
  (chunkList N (List.range L)).map fun ck => (ck.headD 0, ck.headD 0 + ck.length)

/-- The index ranges of the chunks the first pass marked invalid. -/
def invalidRanges (N L : Nat) (validChunks : List Bool) : List (Nat × Nat) :=
  ((chunkRanges N L).zip validChunks).filterMap fun rv =>
    if rv.2 then none else some rv.1

/-- Whether two half-open index ranges overlap. -/
def rangesOverlap (a b : Nat × Nat) : Bool :=
  decide (a.1 < b.2) && decide (b.1 < a.2)

/-- Modelled from the spec: `PixelStatisticsCalculator.second_pass` — window
the same table with chunk boundaries offset by the configured `chunk_shift`,
keep only the shifted chunks whose index range overlaps a chunk the first
pass marked invalid, and aggregate those. -/
def second_pass (cfg : Config) (c : ColName) (shift : Nat) (tbl : List EventRec)
    (validChunks : List Bool) : List StatsRecord :=
  let N := cfg.chunkLength.toNat
  let L := tbl.length
  let inv := invalidRanges N L validChunks
  let shifted := (chunkRanges N (L - shift)).map fun r => (r.1 + shift, r.2 + shift)
  (shifted.filter fun r => inv.any fun q => rangesOverlap r q).map fun r =>
    aggregateChunk cfg c ((tbl.drop r.1).take (r.2 - r.1))

/-- The observable steps of one tool run: the pass invocations with the
arguments they receive, the skip log message, the bulk data read of `setup`,
and each `write_table` call with the records it persists. -/
inductive TraceEv where
  | firstPassEv (telId : Nat) (c : ColName)
  | secondPassEv (telId : Nat) (tbl : List EventRec) (validChunks : List Bool) (c : ColName)
  | skipLogEv (telId : Nat)
  | readDataEv
  | writeEv (telId : Nat) (recs : List StatsRecord)
deriving DecidableEq, Repr

/-- Comparison used to sort stacked statistics by their starting time. -/
def statLE (a b : StatsRecord) : Bool :=
  decide (a.time_start ≤ b.time_start)

/-- Insert one record into a list sorted by `time_start`, keeping it sorted. -/
def insertStat (r : StatsRecord) : List StatsRecord → List StatsRecord
  | [] => [r]
  | x :: xs => if statLE r x then r :: x :: xs else x :: insertStat r xs

/-- The in-place `aggregated_stats.sort(["time_start"])` of the driver,
embedded as an insertion sort of the record list by `time_start`. -/
def sortStats : List StatsRecord → List StatsRecord
  | [] => []
  | x :: xs => insertStat x (sortStats xs)

/-- The body of the driver loop of `StatisticsCalculatorTool.start` for one
telescope (source lines 127 to 154): run the first pass; when a
`chunk_shift` is configured and some first-pass chunk is invalid, run the
second pass on the same table with the first-pass validity data, stack both
passes and sort by `time_start`; otherwise keep the first-pass table (and
log the skip when a shift was configured). Returns the table to write and
the trace of engine invocations. -/
def processTelescope (cfg : Config) (c : ColName) (telId : Nat) (tbl : List EventRec) :
    List StatsRecord × List TraceEv :=
  let pass1 := first_pass cfg c tbl
  match cfg.chunkShift with
  | none => (pass1, [.firstPassEv telId c])
  | some shift =>
    if pass1.any fun r => !r.is_valid then
      let pass2 := second_pass cfg c shift tbl (pass1.map StatsRecord.is_valid)
      (sortStats (pass1 ++ pass2),
        [.firstPassEv telId c,
         .secondPassEv telId tbl (pass1.map StatsRecord.is_valid) c])
    else
      (pass1, [.firstPassEv telId c, .skipLogEv telId])

/-- The loop of `StatisticsCalculatorTool.start` (source lines 126 to 161):
telescopes are handled strictly one after another, and the table of each
telescope is written before the next telescope is processed. `wf` tells
which telescope writes fail; a failed write aborts the run at that point,
leaving every earlier write in place. -/
def startLoop (cfg : Config) (c : ColName) (wf : Nat → Bool) :
    List (Nat × List EventRec) → Except ToolError Unit × List TraceEv
  | [] => (.ok (), [])
  | (telId, tbl) :: rest =>
    let pt := processTelescope cfg c telId tbl
    if wf telId then (.error .writeError, pt.2)
    else
      let r := startLoop cfg c wf rest
      (r.1, pt.2 ++ (.writeEv telId pt.1 :: r.2))

/-- The whole tool run: the configuration checks of `setup` (column-name
validation by the trait machinery, the input/output path collision check of
source lines 95 to 98, chunk-length validation when the calculator is
constructed) happen before any data is read; then the data is read and the
`start` loop runs. -/
def runTool (cfg : Config) (wf : Nat → Bool) (tables : List (Nat × List EventRec)) :
    Except ToolError Unit × List TraceEv :=
  match validateColName cfg.dl1aColumnName with
  | .error e => (.error e, [])
  | .ok c =>
    if cfg.inputUrl = cfg.outputPath then (.error .configurationError, [])
    else if cfg.chunkLength ≤ 0 then (.error .configurationError, [])
    else
      let r := startLoop cfg c wf tables
      (r.1, .readDataEv :: r.2)

/-- Whether a trace step is an invocation of the second pass. -/
def isSecondPassEv : TraceEv → Bool
  | .secondPassEv _ _ _ _ => true
  | _ => false

/-- Whether a trace step is a `write_table` call. -/
def isWriteEv : TraceEv → Bool
  | .writeEv _ _ => true
  | _ => false

/-- Whether a trace step is a read of the input data. -/
def isReadEv : TraceEv → Bool
  | .readDataEv => true
  | _ => false

/-- Whether a trace step, if it is a pass invocation, carries the column
selector `c` (other steps carry no column and pass trivially). -/
def passUsesCol (c : ColName) : TraceEv → Bool
  | .firstPassEv _ c2 => c2 == c
  | .secondPassEv _ _ _ c2 => c2 == c
  | _ => true

/-- A concrete configuration used to exercise the two-pass path: chunk
length 2, chunk shift 1, at least 2 events per valid chunk, one pixel,
wide outlier bounds. -/
def cfgW : Config :=
  { inputUrl := "input.dl1.h5"
    outputPath := "monitoring.h5"
    dl1aColumnName := "image"
    chunkLength := 2
    chunkShift := some 1
    outlierFracThreshold := 1
    validLo := -1000
    validHi := 1000
    minEvents := 2
    nPixels := 1 }

/-- A one-pixel event with the given timestamp and image value. -/
def evW (t : Nat) (v : ℚ) : EventRec :=
  { time := t, image := [some v], peak_time := [some 0], variance := [some 0] }

/-- A concrete three-event table: under `cfgW` the first pass makes chunks
`[0,1]` and `[2]`, and the single-event chunk fails the minimum-event count,
so the second pass is triggered. -/
def tblW : List EventRec := [evW 0 1, evW 1 1, evW 2 1]

/-- A configuration whose input and output paths collide. -/
def cfgP : Config :=
  { cfgW with inputUrl := "monitoring.h5", outputPath := "monitoring.h5" }

/-- The configuration `cfgW` without a chunk shift (single-pass mode). -/
def cfgN : Config :=
  { cfgW with chunkShift := none }

theorem chunksGo_fuel (N : Nat) (hN : 0 < N) :
    ∀ (fuel1 fuel2 : Nat) (l : List α), l.length ≤ fuel1 → l.length ≤ fuel2 →
      chunksGo N fuel1 l = chunksGo N fuel2 l := by
  intro fuel1
  induction fuel1 with
  | zero =>
    intro fuel2 l h1 _
    have : l = [] := List.eq_nil_of_length_eq_zero (Nat.le_zero.mp h1)
    subst this
    cases fuel2 <;> rfl
  | succ f1 ih =>
    intro fuel2 l h1 h2
    cases l with
    | nil => cases fuel2 <;> rfl
    | cons x xs =>
      cases fuel2 with
      | zero => simp at h2
      | succ f2 =>
        simp only [chunksGo]
        congr 1
        apply ih
        · simp only [List.length_drop] at *
          simp at h1 ⊢
          omega
        · simp only [List.length_drop] at *
          simp at h2 ⊢
          omega

theorem chunkList_nil (N : Nat) : chunkList N ([] : List α) = [] := by
  unfold chunkList
  cases N <;> rfl

theorem chunkList_cons (N : Nat) (hN : 0 < N) (l : List α) (hne : l ≠ []) :
    chunkList N l = l.take N :: chunkList N (l.drop N) := by
  cases l with
  | nil => exact absurd rfl hne
  | cons x xs =>
    unfold chunkList
    have hN0 : ¬ N = 0 := Nat.pos_iff_ne_zero.mp hN
    simp only [hN0, if_false]
    simp only [List.length_cons, chunksGo]
    congr 1
    apply chunksGo_fuel N hN
    · simp only [List.length_drop]
      simp
      omega
    · simp only [List.length_drop]
      simp

theorem chunkList_flatten (N : Nat) (hN : 0 < N) (l : List α) :
    (chunkList N l).flatten = l := by
  generalize hn : l.length = n
  induction n using Nat.strong_induction_on generalizing l with
  | _ n ih =>
    subst hn
    cases l with
    | nil => simp [chunkList_nil]
    | cons x xs =>
      rw [chunkList_cons N hN _ (by simp)]
      have hlt : (List.drop N (x :: xs)).length < (x :: xs).length := by
        simp only [List.length_drop, List.length_cons]
        omega
      rw [List.flatten_cons, ih _ hlt _ rfl]
      exact List.take_append_drop N (x :: xs)

theorem chunkList_length (N : Nat) (hN : 0 < N) (l : List α) :
    (chunkList N l).length = (l.length + N - 1) / N := by
  generalize hn : l.length = n
  induction n using Nat.strong_induction_on generalizing l with
  | _ n ih =>
    subst hn
    cases l with
    | nil =>
      simp only [chunkList_nil, List.length_nil]
      rw [Nat.div_eq_of_lt (by omega)]
    | cons x xs =>
      rw [chunkList_cons N hN _ (by simp)]
      have hlt : (List.drop N (x :: xs)).length < (x :: xs).length := by
        simp only [List.length_drop, List.length_cons]
        omega
      simp only [List.length_cons]
      rw [ih _ hlt _ rfl]
      simp only [List.length_drop, List.length_cons]
      have h1 : xs.length + 1 + N - 1 = xs.length + N := by omega
      rw [h1, Nat.add_div_right _ hN]
      by_cases hc : N ≤ xs.length + 1
      · have h2 : xs.length + 1 - N + N - 1 = xs.length := by omega
        rw [h2]
      · have h2 : xs.length + 1 - N = 0 := by omega
        rw [h2]
        rw [Nat.div_eq_of_lt (by omega), Nat.div_eq_of_lt (by omega)]

theorem chunkList_single (N : Nat) (l : List α) (h0 : l ≠ []) (h : l.length ≤ N) :
    chunkList N l = [l] := by
  have hN : 0 < N := lt_of_lt_of_le (List.length_pos.mpr h0) h
  rw [chunkList_cons N hN l h0, List.take_of_length_le h, List.drop_eq_nil_of_le h,
    chunkList_nil]

theorem insertStat_perm (r : StatsRecord) (l : List StatsRecord) :
    (insertStat r l).Perm (r :: l) := by
  induction l with
  | nil => exact List.Perm.refl _
  | cons x xs ih =>
    simp only [insertStat]
    by_cases h : statLE r x = true
    · rw [if_pos h]
    · rw [if_neg h]
      exact (List.Perm.cons x ih).trans (List.Perm.swap r x xs)

theorem sortStats_perm (l : List StatsRecord) : (sortStats l).Perm l := by
  induction l with
  | nil => exact List.Perm.refl _
  | cons x xs ih =>
    exact (insertStat_perm x (sortStats xs)).trans (List.Perm.cons x ih)

theorem insertStat_pairwise (r : StatsRecord) (l : List StatsRecord)
    (h : l.Pairwise fun a b => a.time_start ≤ b.time_start) :
    (insertStat r l).Pairwise fun a b => a.time_start ≤ b.time_start := by
  induction l with
  | nil => simp [insertStat]
  | cons x xs ih =>
    obtain ⟨hx, hxs⟩ := List.pairwise_cons.mp h
    simp only [insertStat]
    by_cases hc : statLE r x = true
    · rw [if_pos hc]
      have hrx : r.time_start ≤ x.time_start := by
        simpa [statLE] using hc
      refine List.pairwise_cons.mpr ⟨?_, h⟩
      intro b hb
      cases hb with
      | head => exact hrx
      | tail _ hb => exact le_trans hrx (hx b hb)
    · have hxr : x.time_start ≤ r.time_start := by
        simp only [statLE, decide_eq_true_eq] at hc
        omega
      rw [if_neg hc]
      refine List.pairwise_cons.mpr ⟨?_, ih hxs⟩
      intro b hb
      have hmem : b = r ∨ b ∈ xs := by
        simpa using (insertStat_perm r xs).mem_iff.mp hb
      cases hmem with
      | inl hb2 => exact hb2 ▸ hxr
      | inr hb2 => exact hx b hb2

theorem sortStats_pairwise (l : List StatsRecord) :
    (sortStats l).Pairwise fun a b => a.time_start ≤ b.time_start := by
  induction l with
  | nil => simp [sortStats]
  | cons x xs ih => exact insertStat_pairwise x _ ih

theorem processTelescope_secondpass_eq (cfg : Config) (c : ColName) (telId : Nat)
    (tbl : List EventRec) (shift : Nat) (h1 : cfg.chunkShift = some shift)
    (h2 : ((first_pass cfg c tbl).any fun r => !r.is_valid) = true) :
    processTelescope cfg c telId tbl =
      (sortStats (first_pass cfg c tbl ++
          second_pass cfg c shift tbl ((first_pass cfg c tbl).map StatsRecord.is_valid)),
        [.firstPassEv telId c,
         .secondPassEv telId tbl ((first_pass cfg c tbl).map StatsRecord.is_valid) c]) := by
  simp only [processTelescope, h1, h2, if_true]

theorem processTelescope_no_write (cfg : Config) (c : ColName) (telId : Nat)
    (tbl : List EventRec) :
    (processTelescope cfg c telId tbl).2.filter isWriteEv = [] := by
  simp only [processTelescope]
  cases cfg.chunkShift with
  | none => rfl
  | some shift =>
    by_cases h : ((first_pass cfg c tbl).any fun r => !r.is_valid) = true
    · simp [h, isWriteEv]
    · simp [h, isWriteEv]

theorem processTelescope_col_all (cfg : Config) (c : ColName) (telId : Nat)
    (tbl : List EventRec) :
    ((processTelescope cfg c telId tbl).2.all (passUsesCol c)) = true := by
  simp only [processTelescope]
  cases cfg.chunkShift with
  | none => simp [passUsesCol]
  | some shift =>
    by_cases h : ((first_pass cfg c tbl).any fun r => !r.is_valid) = true
    · simp [h, passUsesCol]
    · simp [h, passUsesCol]

theorem startLoop_col_all (cfg : Config) (c : ColName) (wf : Nat → Bool)
    (tables : List (Nat × List EventRec)) :
    ((startLoop cfg c wf tables).2.all (passUsesCol c)) = true := by
  induction tables with
  | nil => rfl
  | cons p rest ih =>
    obtain ⟨telId, tbl⟩ := p
    simp only [startLoop]
    by_cases h : wf telId = true
    · rw [if_pos h]
      exact processTelescope_col_all cfg c telId tbl
    · rw [if_neg h]
      simp only [List.all_append, List.all_cons]
      rw [processTelescope_col_all cfg c telId tbl, ih]
      rfl

/-- C1: for every telescope table, the second pass is invoked if and only if
a `chunk_shift` is configured and some first-pass chunk is invalid; when it
is invoked it receives exactly the same event table and the first-pass
`is_valid` data as `valid_chunks` (and the same column selector). -/
theorem secondPass_trigger_iff (cfg : Config) (c : ColName) (telId : Nat)
    (tbl : List EventRec) :
    ((processTelescope cfg c telId tbl).2.any isSecondPassEv = true ↔
      cfg.chunkShift ≠ none ∧
        ((first_pass cfg c tbl).any fun r => !r.is_valid) = true) ∧
    (processTelescope cfg c telId tbl).2.filter isSecondPassEv =
      (if cfg.chunkShift.isSome &&
          ((first_pass cfg c tbl).any fun r => !r.is_valid) then
        [TraceEv.secondPassEv telId tbl ((first_pass cfg c tbl).map StatsRecord.is_valid) c]
      else []) := by
  cases hs : cfg.chunkShift with
  | none => simp [processTelescope, hs, isSecondPassEv]
  | some shift =>
    by_cases h : ((first_pass cfg c tbl).any fun r => !r.is_valid) = true
    · simp [processTelescope, hs, h, isSecondPassEv]
    · simp only [Bool.not_eq_true] at h
      simp [processTelescope, hs, h, isSecondPassEv]

/-- C2: when the second pass runs, the written per-telescope table is a
permutation of the concatenation of first-pass and second-pass records (so
no record is deleted or deduplicated; the invalid first-pass records are
retained next to their second-pass replacements) and it is non-decreasing in
`time_start`. -/
theorem merged_output_perm_sorted (cfg : Config) (c : ColName) (telId : Nat)
    (tbl : List EventRec) (shift : Nat)
    (h1 : cfg.chunkShift = some shift)
    (h2 : ((first_pass cfg c tbl).any fun r => !r.is_valid) = true) :
    ((processTelescope cfg c telId tbl).1).Perm
      (first_pass cfg c tbl ++
        second_pass cfg c shift tbl ((first_pass cfg c tbl).map StatsRecord.is_valid)) ∧
    ((processTelescope cfg c telId tbl).1).Pairwise
      (fun a b => a.time_start ≤ b.time_start) := by
  rw [processTelescope_secondpass_eq cfg c telId tbl shift h1 h2]
  exact ⟨sortStats_perm _, sortStats_pairwise _⟩

/-- C2 witness: under `cfgW` and `tblW` the second pass runs and the merged
output is a sorted permutation of the two stacked passes. -/
theorem merged_output_perm_sorted_witness :
    ((processTelescope cfgW ColName.image 1 tblW).1).Perm
      (first_pass cfgW ColName.image tblW ++
        second_pass cfgW ColName.image 1 tblW
          ((first_pass cfgW ColName.image tblW).map StatsRecord.is_valid)) ∧
    ((processTelescope cfgW ColName.image 1 tblW).1).Pairwise
      (fun a b => a.time_start ≤ b.time_start) :=
  merged_output_perm_sorted cfgW ColName.image 1 tblW 1 (by decide) (by decide)

/-- C3: with no `chunk_shift` configured, or with a shift configured but all
first-pass chunks valid, the table written for the telescope is exactly the
first-pass result, unchanged. -/
theorem single_pass_output_unchanged (cfg : Config) (c : ColName) (telId : Nat)
    (tbl : List EventRec)
    (h : cfg.chunkShift = none ∨
      ((first_pass cfg c tbl).any fun r => !r.is_valid) = false) :
    (processTelescope cfg c telId tbl).1 = first_pass cfg c tbl := by
  cases h with
  | inl h => simp [processTelescope, h]
  | inr h =>
    cases hs : cfg.chunkShift with
    | none => simp [processTelescope, hs]
    | some shift => simp [processTelescope, hs, h]

/-- C3 witness: under the shift-free configuration `cfgN` the output of the
telescope is the first-pass table itself. -/
theorem single_pass_output_unchanged_witness :
    (processTelescope cfgN ColName.image 1 tblW).1 = first_pass cfgN ColName.image tblW :=
  single_pass_output_unchanged cfgN ColName.image 1 tblW (Or.inl rfl)

/-- C4: when the configured input path equals the configured output path the
run aborts with a configuration error raised in `setup`, before any data is
read or processed and with nothing written (the observable trace is empty).
-/
theorem path_collision_aborts (cfg : Config) (wf : Nat → Bool)
    (tables : List (Nat × List EventRec)) (h : cfg.inputUrl = cfg.outputPath) :
    runTool cfg wf tables = (.error .configurationError, []) := by
  unfold runTool
  cases hv : validateColName cfg.dl1aColumnName with
  | error e =>
    have he : e = .configurationError := by
      unfold validateColName at hv
      split at hv
      · exact absurd hv (by simp)
      · split at hv
        · exact absurd hv (by simp)
        · split at hv
          · exact absurd hv (by simp)
          · exact (Except.error.injEq _ _).mp hv.symm
    rw [he]
  | ok c =>
    dsimp only
    rw [if_pos h]

/-- C4 witness: the collision configuration `cfgP` aborts immediately. -/
theorem path_collision_aborts_witness :
    runTool cfgP (fun _ => false) [(1, tblW)] = (.error .configurationError, []) :=
  path_collision_aborts cfgP (fun _ => false) [(1, tblW)] rfl

/-- C5: the Chunk Windower accepts every chunk length `N ≥ 1` (in particular
`N = 1`), raising no error for valid inputs; it fails with a configuration
error exactly for a chunk length that is not positive; a non-empty table
with fewer events than the chunk length yields a single short chunk. -/
theorem chunk_windower_validation (N M : Int) (l : List EventRec)
    (hN : 1 ≤ N) (hM : M ≤ 0) (h0 : l ≠ []) (hshort : (l.length : Int) < N) :
    (makeChunks N l).isOk = true ∧
    (makeChunks 1 l).isOk = true ∧
    makeChunks M l = .error .configurationError ∧
    makeChunks N l = .ok [l] := by
  have hNn : ¬ N ≤ 0 := by omega
  refine ⟨?_, ?_, ?_, ?_⟩
  · simp [makeChunks, hNn, Except.isOk, Except.toBool]
  · simp [makeChunks, Except.isOk, Except.toBool]
  · simp [makeChunks, hM]
  · rw [makeChunks, if_neg hNn]
    rw [chunkList_single N.toNat l h0 (by omega)]

/-- C5 witness: chunk length 2 on a one-event table gives the single short
chunk, chunk length 0 is rejected. -/
theorem chunk_windower_validation_witness :
    (makeChunks 2 [evW 0 1]).isOk = true ∧
    (makeChunks 1 [evW 0 1]).isOk = true ∧
    makeChunks 0 [evW 0 1] = .error .configurationError ∧
    makeChunks 2 [evW 0 1] = .ok [[evW 0 1]] :=
  chunk_windower_validation 2 0 [evW 0 1] (by decide) (by decide) (by decide) (by decide)

/-- C6: the aggregated data column is validated against the closed set
`{image, peak_time, variance}` (caseless); any other name is rejected as a
configuration error before anything is read or processed (empty trace), and
the accepted selector is the one handed unchanged to every first- and
second-pass invocation of the run. -/
theorem column_name_enum_validation (cfg : Config) (wf : Nat → Bool)
    (tables : List (Nat × List EventRec)) (c : ColName) (s : String)
    (hok : validateColName cfg.dl1aColumnName = .ok c)
    (hbad : lowerStr s ≠ "image" ∧ lowerStr s ≠ "peak_time" ∧ lowerStr s ≠ "variance") :
    validateColName s = .error .configurationError ∧
    (lowerStr cfg.dl1aColumnName = "image" ∨ lowerStr cfg.dl1aColumnName = "peak_time" ∨
      lowerStr cfg.dl1aColumnName = "variance") ∧
    runTool { cfg with dl1aColumnName := s } wf tables = (.error .configurationError, []) ∧
    ((runTool cfg wf tables).2.all (passUsesCol c)) = true := by
  refine ⟨?_, ?_, ?_, ?_⟩
  · simp [validateColName, hbad.1, hbad.2.1, hbad.2.2]
  · unfold validateColName at hok
    split at hok
    · exact Or.inl (by assumption)
    · split at hok
      · exact Or.inr (Or.inl (by assumption))
      · split at hok
        · exact Or.inr (Or.inr (by assumption))
        · exact absurd hok (by simp)
  · unfold runTool
    have hs2 : validateColName s = .error .configurationError := by
      simp [validateColName, hbad.1, hbad.2.1, hbad.2.2]
    simp [hs2]
  · unfold runTool
    rw [hok]
    dsimp only
    by_cases hio : cfg.inputUrl = cfg.outputPath
    · rw [if_pos hio]
      rfl
    · rw [if_neg hio]
      by_cases hcl : cfg.chunkLength ≤ 0
      · rw [if_pos hcl]
        rfl
      · rw [if_neg hcl]
        simp only [List.all_cons]
        rw [startLoop_col_all cfg c wf tables]
        rfl

/-- C6 witness: `cfgW` selects the image channel and the unsupported name
`"charge"` is rejected with an empty trace. -/
theorem column_name_enum_validation_witness :
    validateColName "charge" = .error .configurationError ∧
    (lowerStr cfgW.dl1aColumnName = "image" ∨ lowerStr cfgW.dl1aColumnName = "peak_time" ∨
      lowerStr cfgW.dl1aColumnName = "variance") ∧
    runTool { cfgW with dl1aColumnName := "charge" } (fun _ => false) [(1, tblW)] =
      (.error .configurationError, []) ∧
    ((runTool cfgW (fun _ => false) [(1, tblW)]).2.all (passUsesCol ColName.image)) = true :=
  column_name_enum_validation cfgW (fun _ => false) [(1, tblW)] ColName.image "charge"
    (by rfl) (by decide)

/-- C7: for every chunk length `N ≥ 1` the chunks of the first pass exactly
cover the table with no gaps or overlaps (their concatenation is the table
itself), exactly `⌈L / N⌉` chunks are produced, a shorter-than-one-chunk
table gives exactly one partial chunk, and the first pass makes one record
per chunk. -/
theorem first_pass_chunk_coverage (cfg : Config) (c : ColName) (N : Nat)
    (l l2 : List EventRec) (hN : 0 < N) (hcfg : cfg.chunkLength.toNat = N)
    (h0 : l2 ≠ []) (hshort : l2.length < N) :
    (chunkList N l).flatten = l ∧
    (chunkList N l).length = (l.length + N - 1) / N ∧
    chunkList N l2 = [l2] ∧
    (first_pass cfg c l).length = (l.length + N - 1) / N := by
  refine ⟨chunkList_flatten N hN l, chunkList_length N hN l,
    chunkList_single N l2 h0 (le_of_lt hshort), ?_⟩
  unfold first_pass
  rw [hcfg, List.length_map, chunkList_length N hN l]

/-- C7 witness: chunk length 2 over the three-event table gives two covering
chunks; a one-event table gives a single short chunk. -/
theorem first_pass_chunk_coverage_witness :
    (chunkList 2 tblW).flatten = tblW ∧
    (chunkList 2 tblW).length = (tblW.length + 2 - 1) / 2 ∧
    chunkList 2 [evW 0 1] = [[evW 0 1]] ∧
    (first_pass cfgW ColName.image tblW).length = (tblW.length + 2 - 1) / 2 :=
  first_pass_chunk_coverage cfgW ColName.image 2 tblW [evW 0 1]
    (by decide) (by decide) (by decide) (by decide)

/-- C8: when the second pass still leaves invalid records, no error is
raised: every record of the stacked result — the invalid ones included —
stays in the merged output, that output is written, and the run for the
telescope completes successfully. -/
theorem unrecovered_invalid_written (cfg : Config) (c : ColName) (telId : Nat)
    (tbl : List EventRec) (shift : Nat) (r : StatsRecord) (wf : Nat → Bool)
    (h1 : cfg.chunkShift = some shift)
    (h2 : ((first_pass cfg c tbl).any fun x => !x.is_valid) = true)
    (hr : r ∈ first_pass cfg c tbl ++
      second_pass cfg c shift tbl ((first_pass cfg c tbl).map StatsRecord.is_valid))
    (hinv : r.is_valid = false)
    (hw : wf telId = false) :
    r ∈ (processTelescope cfg c telId tbl).1 ∧
    (startLoop cfg c wf [(telId, tbl)]).1 = .ok () ∧
    TraceEv.writeEv telId (processTelescope cfg c telId tbl).1 ∈
      (startLoop cfg c wf [(telId, tbl)]).2 := by
  refine ⟨?_, ?_, ?_⟩
  · rw [processTelescope_secondpass_eq cfg c telId tbl shift h1 h2]
    exact (sortStats_perm _).mem_iff.mpr hr
  · simp [startLoop, hw]
  · simp [startLoop, hw]

/-- C8 witness: under `cfgW` and `tblW` the single-event chunk record stays
invalid after the second pass, is kept in the merged output and is written,
with the run ending in success. -/
theorem unrecovered_invalid_written_witness :
    aggregateChunk cfgW ColName.image [evW 2 1] ∈
      (processTelescope cfgW ColName.image 1 tblW).1 ∧
    (startLoop cfgW ColName.image (fun _ => false) [(1, tblW)]).1 = .ok () ∧
    TraceEv.writeEv 1 (processTelescope cfgW ColName.image 1 tblW).1 ∈
      (startLoop cfgW ColName.image (fun _ => false) [(1, tblW)]).2 :=
  unrecovered_invalid_written cfgW ColName.image 1 tblW 1
    (aggregateChunk cfgW ColName.image [evW 2 1]) (fun _ => false)
    (by decide) (by decide) (by decide) (by decide) (by decide)

/-- C9: the first pass is a pure function of its input — running it twice on
the same table gives identical records — and the aggregated statistics of a
chunk (mean, variance, outlier mask, validity) do not depend on the order of
the events inside the chunk. -/
theorem first_pass_pure_perm_invariant (cfg : Config) (c : ColName)
    (tbl c1 c2 : List EventRec) (hp : c1.Perm c2) :
    first_pass cfg c tbl = first_pass cfg c tbl ∧
    (aggregateChunk cfg c c1).mean = (aggregateChunk cfg c c2).mean ∧
    (aggregateChunk cfg c c1).var = (aggregateChunk cfg c c2).var ∧
    (aggregateChunk cfg c c1).outlier_mask = (aggregateChunk cfg c c2).outlier_mask ∧
    (aggregateChunk cfg c c1).is_valid = (aggregateChunk cfg c c2).is_valid := by
  have hread : ∀ p, (pixelReadings c c1 p).Perm (pixelReadings c c2 p) :=
    fun p => hp.filterMap _
  have hmean : ∀ p, pixelMean (pixelReadings c c1 p) = pixelMean (pixelReadings c c2 p) := by
    intro p
    unfold pixelMean
    rw [(hread p).sum_eq, (hread p).length_eq]
  have hvar : ∀ p, pixelVar (pixelReadings c c1 p) = pixelVar (pixelReadings c c2 p) := by
    intro p
    unfold pixelVar
    rw [hmean p, ((hread p).map _).sum_eq, (hread p).length_eq]
  have hmeans : chunkMeans cfg c c1 = chunkMeans cfg c c2 := by
    unfold chunkMeans
    exact List.map_congr_left fun p _ => hmean p
  have hvars : chunkVars cfg c c1 = chunkVars cfg c c2 := by
    unfold chunkVars
    exact List.map_congr_left fun p _ => hvar p
  have hmask : chunkMask cfg c c1 = chunkMask cfg c c2 := by
    unfold chunkMask
    rw [hmeans]
  refine ⟨rfl, hmeans, hvars, hmask, ?_⟩
  show (decide _ && decide _) = (decide _ && decide _)
  rw [hmask, hp.length_eq]

/-- C9 witness: swapping the two events of a chunk leaves every aggregated
statistic unchanged. -/
theorem first_pass_pure_perm_invariant_witness :
    first_pass cfgW ColName.image tblW = first_pass cfgW ColName.image tblW ∧
    (aggregateChunk cfgW ColName.image [evW 0 1, evW 1 2]).mean =
      (aggregateChunk cfgW ColName.image [evW 1 2, evW 0 1]).mean ∧
    (aggregateChunk cfgW ColName.image [evW 0 1, evW 1 2]).var =
      (aggregateChunk cfgW ColName.image [evW 1 2, evW 0 1]).var ∧
    (aggregateChunk cfgW ColName.image [evW 0 1, evW 1 2]).outlier_mask =
      (aggregateChunk cfgW ColName.image [evW 1 2, evW 0 1]).outlier_mask ∧
    (aggregateChunk cfgW ColName.image [evW 0 1, evW 1 2]).is_valid =
      (aggregateChunk cfgW ColName.image [evW 1 2, evW 0 1]).is_valid :=
  first_pass_pure_perm_invariant cfgW ColName.image tblW
    [evW 0 1, evW 1 2] [evW 1 2, evW 0 1] (List.Perm.swap (evW 1 2) (evW 0 1) [])

/-- C10: telescopes are handled strictly one after another and each table is
written before the next telescope is processed, so a failing write at one
telescope leaves exactly the outputs of all previously processed telescopes
in the file: the run ends in a write error and the writes that happened are
precisely those of the telescopes before the failing one, in order. -/
theorem telescope_writes_not_atomic (cfg : Config) (c : ColName) (wf : Nat → Bool)
    (pre : List (Nat × List EventRec)) (telId : Nat) (tbl : List EventRec)
    (rest : List (Nat × List EventRec))
    (hpre : ∀ p ∈ pre, wf p.1 = false)
    (hfail : wf telId = true) :
    (startLoop cfg c wf (pre ++ (telId, tbl) :: rest)).1 = .error .writeError ∧
    (startLoop cfg c wf (pre ++ (telId, tbl) :: rest)).2.filter isWriteEv =
      pre.map fun p => TraceEv.writeEv p.1 (processTelescope cfg c p.1 p.2).1 := by
  induction pre with
  | nil =>
    simp only [List.nil_append, startLoop]
    rw [if_pos hfail]
    exact ⟨rfl, by rw [processTelescope_no_write]; rfl⟩
  | cons p0 pre2 ih =>
    obtain ⟨t0, tb0⟩ := p0
    have h0 : wf t0 = false := hpre (t0, tb0) (by simp)
    have hrest : ∀ p ∈ pre2, wf p.1 = false := fun p hp => hpre p (by simp [hp])
    obtain ⟨ih1, ih2⟩ := ih hrest
    simp only [List.cons_append, startLoop]
    rw [if_neg (by simp [h0])]
    refine ⟨ih1, ?_⟩
    simp [List.filter_append, List.filter_cons, List.append_eq,
      processTelescope_no_write, isWriteEv, ih2]

/-- C10 witness: with telescope 2 failing to write, the run errors out and
exactly the output of telescope 1 has been written; telescope 3 is never
reached. -/
theorem telescope_writes_not_atomic_witness :
    (startLoop cfgW ColName.image (fun n => n == 2) ([(1, tblW)] ++ (2, tblW) :: [(3, tblW)])).1 =
      .error .writeError ∧
    (startLoop cfgW ColName.image (fun n => n == 2) ([(1, tblW)] ++ (2, tblW) :: [(3, tblW)])).2.filter isWriteEv =
      [(1, tblW)].map fun p =>
        TraceEv.writeEv p.1 (processTelescope cfgW ColName.image p.1 p.2).1 :=
  telescope_writes_not_atomic cfgW ColName.image (fun n => n == 2)
    [(1, tblW)] 2 tblW [(3, tblW)] (by decide) (by decide)

end StatsCalc
